import Mathlib

/-!
Verification of the frame-ingestion and state-aggregation core of the
macsboost/pythoncan CAN-bus analyzer (src/macsboost_grok_canalyzer2.py).

The per-identifier stores of the application (Python dicts) are modelled as
insertion-ordered association lists, which matches CPython dict semantics:
assignment to an existing key keeps its position, assignment to a fresh key
appends at the end, and deletion removes the entry.  Wall-clock timestamps
and intervals are modelled as rationals.  Tk after-timers for the highlight
fade are modelled explicitly: scheduling allocates a fresh timer id and
appends it to a pending list, after_cancel removes it, and firing a timer
removes it from the pending list and runs the callback body.
-/

namespace CANApp

/-- One byte of a CAN payload. -/
abbrev Byte := Fin 256

/-- Direction of a processed frame, the second argument of display_message. -/
inductive Dir where
  | RX
  | TX
deriving DecidableEq

/-- A CAN message as consumed by display_message: arbitration id, payload
bytes and a timestamp in seconds. -/
structure Msg where
  arbitration_id : Nat
  data : List Byte
  timestamp : ℚ
deriving DecidableEq

/-- Uppercase hexadecimal digit character for a value below 16 (digits then
letters A..F), as produced by Python {:X}/{:02X} formatting. -/
def hexDigitChar (n : Nat) : Char :=
  if n < 10 then Char.ofNat (48 + n) else Char.ofNat (55 + n)

/-- Two-character uppercase hexadecimal rendering of one byte, the
per-byte piece of the source expression f-string {b:02X}. -/
def hexByteChars (b : Byte) : List Char :=
  [hexDigitChar (b.val / 16), hexDigitChar (b.val % 16)]

/-- The space character used by the join in the source. -/
def spaceChar : Char := Char.ofNat 32

/-- Python str.join with a single-space separator. -/
def joinSpace : List (List Char) → List Char
  | [] => []
  | [x] => x
  | x :: y :: rest => x ++ (spaceChar :: joinSpace (y :: rest))

/-- The data string built in display_message (source line 714):
a space-joined list of uppercase two-digit hex bytes. -/
def formatData (data : List Byte) : List Char :=
  joinSpace (data.map hexByteChars)

/-- Digit accumulation for natHex; the fuel argument only forces structural
recursion and is never exhausted when it starts at the value itself. -/
def natHexAux : Nat → Nat → List Char
  | 0, n => [hexDigitChar n]
  | fuel + 1, n =>
    if n < 16 then [hexDigitChar n]
    else natHexAux fuel (n / 16) ++ [hexDigitChar (n % 16)]

/-- Uppercase hexadecimal rendering of a CAN identifier, Python
f-string {msg.arbitration_id:X} (source line 703). -/
def natHex (n : Nat) : List Char :=
  natHexAux n n

/-- Keys of the per-identifier dictionaries: the formatted id string. -/
abbrev CanId := List Char

/-- Dictionary lookup on an insertion-ordered association list. -/
def dget {κ α : Type} [DecidableEq κ] (k : κ) : List (κ × α) → Option α
  | [] => none
  | p :: d => if p.1 = k then some p.2 else dget k d

/-- Dictionary membership, Python: k in d. -/
def dmem {κ α : Type} [DecidableEq κ] (k : κ) (d : List (κ × α)) : Bool :=
  (dget k d).isSome

/-- Dictionary assignment d[k] = v: update in place when the key is present
(keeping its insertion-order position), append at the end otherwise. -/
def dset {κ α : Type} [DecidableEq κ] (k : κ) (v : α) :
    List (κ × α) → List (κ × α)
  | [] => [(k, v)]
  | p :: d => if p.1 = k then (k, v) :: d else p :: dset k v d

/-- Dictionary deletion, Python: del d[k] (a no-op when the key is absent,
matching the guarded deletes in the source; keys are unique in every state
built by dset, so removing every occurrence coincides with del). -/
def ddel {κ α : Type} [DecidableEq κ] (k : κ) :
    List (κ × α) → List (κ × α)
  | [] => []
  | p :: d => if p.1 = k then ddel k d else p :: ddel k d

/-- Per-identifier statistics entry, the value of self.id_stats (source
lines 744-747). -/
structure IdStats where
  count : Nat
  first_timestamp : ℚ
  last_timestamp : ℚ
deriving DecidableEq

/-- Row tag of a message-tree entry: either no tag or a highlight shade
changed1..changed8 (the source keeps strings).  -/
inductive Tags where
  | noTag
  | changed (level : Nat)
deriving DecidableEq

/-- The per-identifier record kept in self.messages; the Tk item id and the
formatted timestamp string are rendering details and not modelled. -/
structure MsgRecord where
  timestamp : ℚ
  delta : ℚ
  tags : Tags
deriving DecidableEq

/-- A self.highlighted_rows entry: fade level and the pending Tk after id. -/
structure HlEntry where
  level : Nat
  after_id : Nat
deriving DecidableEq

/-- The highlight mode strings of the source; self.highlight_mode is set to
MessageChange at source line 59 and never reassigned. -/
inductive HlMode where
  | message
  | messageChange
deriving DecidableEq

/-- Display modes cycled by cycle_ascii_mode; only stored and cleared in the
paths modelled here. -/
inductive DisplayMode where
  | binary
  | dec8
  | dec16
  | decoded
deriving DecidableEq

/-- The dispatcher-owned per-identifier state of CANApp together with the
window counters (source lines 42-68), plus an explicit model of the pending
fade timers: pendingFades lists the not-yet-fired after callbacks for
fade_highlight as (after id, identifier), and next_after_id allocates ids. -/
structure AppState where
  messages : List (CanId × MsgRecord)
  id_stats : List (CanId × IdStats)
  message_history : List (CanId × List (ℚ × List Byte))
  last_data : List (CanId × List Char)
  highlighted_rows : List (CanId × HlEntry)
  display_mode : List (CanId × DisplayMode)
  pendingFades : List (Nat × CanId)
  next_after_id : Nat
  last_message_timestamp : Option ℚ
  message_count : Nat
  message_rate : ℚ
  bus_load : ℚ
  max_messages : Nat
  paused : Bool
  filter_ids : List CanId
  highlight_changes : Bool
  highlight_mode : HlMode
  can_fd : Bool
  bitrate : ℚ
  last_stats_update : ℚ
deriving DecidableEq

/-- Core state as initialized in CANApp.__init__ (source lines 36-72):
empty stores, not paused, no filter, highlight on changes enabled, classic
CAN at the default configured bitrate.  The capacity argument is 500 in the
source (line 58); claim fixtures instantiate it as stated by the claim. -/
def initialState (maxm : Nat) (t0 : ℚ) : AppState :=
  { messages := [], id_stats := [], message_history := [], last_data := [],
    highlighted_rows := [], display_mode := [], pendingFades := [],
    next_after_id := 0, last_message_timestamp := none, message_count := 0,
    message_rate := 0, bus_load := 0, max_messages := maxm, paused := false,
    filter_ids := [], highlight_changes := true,
    highlight_mode := HlMode.messageChange, can_fd := false,
    bitrate := 500000, last_stats_update := t0 }

/-- Tags of the existing row for an identifier, the source expression
messages.get(can_id, default).get(tags, empty) at line 754. -/
def rowTags (s : AppState) (can_id : CanId) : Tags :=
  match dget can_id s.messages with
  | some r => r.tags
  | none => Tags.noTag

/-- Statistics and history update of display_message (source lines 744-753):
create-or-bump the IdStats entry, set its last timestamp, append to the
history ring and drop the oldest entry above 1000. -/
def statsHistoryStep (s : AppState) (can_id : CanId) (ts : ℚ)
    (payload : List Byte) : AppState :=
  let st : IdStats :=
    match dget can_id s.id_stats with
    | none => { count := 1, first_timestamp := ts, last_timestamp := ts }
    | some st => { st with count := st.count + 1, last_timestamp := ts }
  let hist0 : List (ℚ × List Byte) :=
    match dget can_id s.message_history with
    | none => []
    | some h => h
  let hist1 := hist0 ++ [(ts, payload)]
  let hist2 := if hist1.length > 1000 then hist1.drop 1 else hist1
  { s with id_stats := dset can_id st s.id_stats,
           message_history := dset can_id hist2 s.message_history }

/-- Highlight evaluation of display_message (source lines 754-769).  On a
qualifying RX frame the previous pending fade timer for the identifier is
cancelled, the entry restarts at level 1 and a fresh timer is scheduled; the
returned tags are the row tags to write.  TX frames skip the block. -/
def highlightStep (s : AppState) (can_id : CanId) (data : List Char) :
    Dir → AppState × Tags
  | Dir.TX => (s, rowTags s can_id)
  | Dir.RX =>
    if s.highlight_changes = true then
      let changedPrev : Bool :=
        match dget can_id s.last_data with
        | some prev => decide (prev ≠ data)
        | none => false
      let should : Bool :=
        decide (s.highlight_mode = HlMode.message) ||
          (decide (s.highlight_mode = HlMode.messageChange) && changedPrev)
      if should = true then
        let pending1 :=
          match dget can_id s.highlighted_rows with
          | some h => ddel h.after_id s.pendingFades
          | none => s.pendingFades
        let aid := s.next_after_id
        ({ s with
            highlighted_rows :=
              dset can_id { level := 1, after_id := aid } s.highlighted_rows,
            pendingFades := pending1 ++ [(aid, can_id)],
            next_after_id := aid + 1 }, Tags.changed 1)
      else (s, rowTags s can_id)
    else (s, rowTags s can_id)

/-- Last-RX-payload recording of display_message (source lines 770-771). -/
def lastDataStep (s : AppState) (can_id : CanId) (data : List Char) :
    Dir → AppState
  | Dir.RX => { s with last_data := dset can_id data s.last_data }
  | Dir.TX => s

/-- Capacity eviction of display_message (source lines 771-778): when the
store holds at least max_messages records the first-inserted identifier is
removed from messages, id_stats and highlighted_rows.  No pending fade
timer is cancelled here.  The empty-store case cannot arise in the source,
whose capacity is the positive constant 500. -/
def evictStep (s : AppState) : AppState :=
  if s.messages.length ≥ s.max_messages then
    match s.messages with
    | [] => s
    | (oldest, _) :: _ =>
      { s with messages := ddel oldest s.messages,
               id_stats := ddel oldest s.id_stats,
               highlighted_rows := ddel oldest s.highlighted_rows }
  else s

/-- Record insert-or-update of display_message (source lines 780-798). -/
def upsertStep (s : AppState) (can_id : CanId) (ts delta : ℚ) (tags : Tags) :
    AppState :=
  let rec0 : MsgRecord := { timestamp := ts, delta := delta, tags := tags }
  { s with messages := dset can_id rec0 s.messages }

/-- The delta column value of display_message (source lines 709-711): the
difference to the previous global timestamp, zero for the first frame or a
previous timestamp of exactly zero (Python truthiness of the float), and
clamped so a clock regression never yields a negative delta. -/
def deltaOf (s : AppState) (ts : ℚ) : ℚ :=
  let delta0 : ℚ :=
    match s.last_message_timestamp with
    | none => 0
    | some t => if t = 0 then 0 else ts - t
  if delta0 < 0 then 0 else delta0

/-- Embedding of CANApp.display_message (source lines 702-802).  Rendering
(time strings, binary/decimal/DBC display text, tree drawing) is omitted;
the trailing log_message and update_stats calls touch only the log sink and
the window counters, and update_stats is modelled separately because it
reads the wall clock. -/
def display_message (s : AppState) (msg : Msg) (direction : Dir) : AppState :=
  if s.paused = true ∨
      (direction = Dir.RX ∧ s.filter_ids ≠ [] ∧
        ¬ natHex msg.arbitration_id ∈ s.filter_ids) then s
  else
    let can_id := natHex msg.arbitration_id
    let data := formatData msg.data
    let s2 := { s with message_count := s.message_count + 1,
                       last_message_timestamp := some msg.timestamp }
    let s3 := statsHistoryStep s2 can_id msg.timestamp msg.data
    let hres := highlightStep s3 can_id data direction
    let s4 := lastDataStep hres.1 can_id data direction
    upsertStep (evictStep s4) can_id msg.timestamp (deltaOf s msg.timestamp)
      hres.2

/-- Embedding of CANApp.fade_highlight (source lines 804-821): a no-op when
the identifier is absent from the store or the highlight map; otherwise a
level at most 7 advances by one and schedules the next fade step, and a
higher level removes the entry and clears the row tags. -/
def fade_highlight (s : AppState) (can_id : CanId) : AppState :=
  match dget can_id s.messages, dget can_id s.highlighted_rows with
  | some r, some h =>
    if h.level ≤ 7 then
      let aid := s.next_after_id
      { s with
          highlighted_rows :=
            dset can_id { level := h.level + 1, after_id := aid }
              s.highlighted_rows,
          pendingFades := s.pendingFades ++ [(aid, can_id)],
          next_after_id := aid + 1,
          messages :=
            dset can_id { r with tags := Tags.changed (h.level + 1) }
              s.messages }
    else
      { s with
          highlighted_rows := ddel can_id s.highlighted_rows,
          messages := dset can_id { r with tags := Tags.noTag } s.messages }
  | _, _ => s

/-- Firing of a scheduled fade timer: the timer leaves the pending set and
its callback body fade_highlight runs for the stored identifier. -/
def fireFade (s : AppState) (aid : Nat) : AppState :=
  match dget aid s.pendingFades with
  | some can_id => fade_highlight { s with pendingFades := ddel aid s.pendingFades } can_id
  | none => s

/-- Embedding of CANApp.clear_treeview (source lines 644-653).  It empties
messages, message_history, last_data, highlighted_rows and display_mode and
resets the last timestamp; it does not touch id_stats. -/
def clear_treeview (s : AppState) : AppState :=
  { s with messages := [], message_history := [], last_data := [],
           highlighted_rows := [], display_mode := [],
           last_message_timestamp := none }

/-- Embedding of CANApp.reset_stats (source lines 565-572); the trailing
update_stats refresh is modelled separately. -/
def reset_stats (s : AppState) : AppState :=
  { s with id_stats := [], message_count := 0, message_rate := 0,
           bus_load := 0 }

/-- Embedding of the windowed part of CANApp.update_stats (source lines
930-941): rate from the frames counted since the last window, bus load from
the fixed per-frame bit estimate, upper-clamped at 100, then the window
counter resets. -/
def update_stats (s : AppState) (current_time : ℚ) : AppState :=
  let elapsed := current_time - s.last_stats_update
  if elapsed > 0 then
    let rate : ℚ := (s.message_count : ℚ) / elapsed
    let bits_per_message : ℚ := if s.can_fd = true then 128 + 64 else 47 + 64
    let load0 := rate * bits_per_message / s.bitrate * 100
    let load := if load0 > 100 then 100 else load0
    { s with message_rate := rate, bus_load := load, message_count := 0,
             last_stats_update := current_time }
  else s

/-- Per-identifier frequency as computed in CANApp.update_stats (source
lines 948-952); the source conjunct testing the presence of the
first_timestamp key is always true since the key is set at entry creation
and never deleted. -/
def frequency (stats : IdStats) : ℚ :=
  if stats.count ≥ 2 then
    let duration := stats.last_timestamp - stats.first_timestamp
    if duration > 0 then (stats.count : ℚ) / duration else 0
  else 0

/-- Processing of a sequence of frames by display_message. -/
def processFrames (s : AppState) : List (Msg × Dir) → AppState
  | [] => s
  | (m, d) :: rest => processFrames (display_message s m d) rest

/-- Convenience constructor for fixture messages. -/
def mkMsg (i : Nat) (bs : List Byte) (t : ℚ) : Msg :=
  { arbitration_id := i, data := bs, timestamp := t }

/-- One outcome of bus.recv inside receive_loop: a frame, a timeout
returning nothing, a transient can.CanError, or any other exception. -/
inductive RecvEvent where
  | frame (m : Msg)
  | timeout
  | canErr
  | otherErr
deriving DecidableEq

/-- An item placed on the frame queue by the Receiver: a message, the
Exception for excessive CAN errors, or a forwarded non-CAN exception. -/
inductive QItem where
  | msg (m : Msg)
  | fatalErr
  | otherErr
deriving DecidableEq

/-- Embedding of CANApp.receive_loop (source lines 883-904) with the
running flag held true, over a trace of receive outcomes.  It returns the
queue contents and the final consecutive-error counter; reaching the end of
the trace models the loop still running. -/
def receive_loop : List RecvEvent → Nat → List QItem → List QItem × Nat
  | [], c, q => (q, c)
  | RecvEvent.frame m :: rest, _, q => receive_loop rest 0 (q ++ [QItem.msg m])
  | RecvEvent.timeout :: rest, c, q => receive_loop rest c q
  | RecvEvent.canErr :: rest, c, q =>
    if c + 1 > 10 then (q ++ [QItem.fatalErr], c + 1)
    else receive_loop rest (c + 1) q
  | RecvEvent.otherErr :: _, c, q => (q ++ [QItem.otherErr], c)

/-- Hex-digit test of validate_send_inputs (source line 375), accepting
digits and both letter cases. -/
def isHexDigitChar (c : Char) : Bool :=
  (48 ≤ c.toNat && c.toNat ≤ 57) || (65 ≤ c.toNat && c.toNat ≤ 70) ||
    (97 ≤ c.toNat && c.toNat ≤ 102)

/-- Numeric value of a hex digit character. -/
def hexVal (c : Char) : Nat :=
  if c.toNat ≤ 57 then c.toNat - 48
  else if c.toNat ≤ 70 then c.toNat - 55
  else c.toNat - 87

/-- Embedding of bytes.fromhex on an even-length string of hex digits:
consecutive digit pairs become bytes. -/
def fromHex : List Char → List Byte
  | c1 :: c2 :: rest =>
    (⟨(hexVal c1 * 16 + hexVal c2) % 256, by omega⟩ : Byte) :: fromHex rest
  | _ => []

/-- Embedding of CANApp.validate_send_inputs (source lines 364-388).  The
entry widgets are abstracted to an already-parsed id and interval and the
data text with spaces removed; none models the error dialog and early
return, and a ValueError from the int/float parses themselves also yields
none in the source. -/
def validate_send_inputs (can_id : Int) (extended_id can_fd : Bool)
    (data_text : List Char) (interval : ℚ) :
    Option (Int × List Byte × ℚ) :=
  let max_id : Int := if extended_id = true then 0x1FFFFFFF else 0x7FF
  if can_id < 0 ∨ can_id > max_id then none
  else
    let max_bytes : Nat := if can_fd = true then 64 else 8
    let dataOpt : Option (List Byte) :=
      if data_text = [] then some (List.replicate max_bytes (0 : Byte))
      else if ¬ data_text.all isHexDigitChar = true then none
      else if data_text.length % 2 ≠ 0 then none
      else some (fromHex data_text)
    match dataOpt with
    | none => none
    | some data =>
      if data.length > max_bytes then none
      else if interval ≤ 0 then none
      else some (can_id, data, interval)

/-- Embedding of the send decision of CANApp.send_once (source lines
956-980): without a connected bus or with rejected inputs nothing is sent;
otherwise the validated id and payload are handed to bus.send. -/
def send_once (bus : Bool) (can_id : Int) (extended_id can_fd : Bool)
    (data_text : List Char) (interval : ℚ) : Option (Int × List Byte) :=
  if bus = false then none
  else
    match validate_send_inputs can_id extended_id can_fd data_text interval with
    | none => none
    | some (i, d, _) => some (i, d)

/-- Outcome of one bus.send attempt inside the periodic path. -/
inductive SendResult where
  | ok
  | canError
  | otherError
deriving DecidableEq

/-- The state touched by the periodic-send scheduler: bus connectivity, the
periodic checkbox variable, whether an after timer for the next cycle is
pending (periodic_task_id is not None), and counters of send attempts and
of TX frames fed to display_message. -/
structure PeriodicState where
  bus : Bool
  send_periodic_var : Bool
  task_scheduled : Bool
  sends_attempted : Nat
  tx_displayed : Nat
deriving DecidableEq

/-- Embedding of CANApp.stop_periodic (source lines 1036-1043): cancel the
pending cycle timer and uncheck the periodic variable. -/
def stop_periodic (ps : PeriodicState) : PeriodicState :=
  { ps with task_scheduled := false, send_periodic_var := false }

/-- Embedding of one invocation of CANApp.schedule_periodic_send (source
lines 1011-1034): bail out and stop when untoggled or disconnected, attempt
exactly one send, on failure stop the whole job, and only on success
display the TX frame and schedule the next cycle after the interval. -/
def schedule_periodic_send (ps : PeriodicState) (outcome : SendResult) :
    PeriodicState :=
  if ps.send_periodic_var = false ∨ ps.bus = false then stop_periodic ps
  else
    match outcome with
    | SendResult.ok =>
      { ps with sends_attempted := ps.sends_attempted + 1,
                tx_displayed := ps.tx_displayed + 1,
                task_scheduled := true }
    | _ => stop_periodic { ps with sends_attempted := ps.sends_attempted + 1 }

/-- Embedding of CANApp.toggle_periodic (source lines 982-1009): without a
bus the checkbox is reset; when toggled on, rejected inputs or an interval
below 10 ms stop the job before any send, and otherwise the first cycle
runs immediately; toggling off stops the job. -/
def toggle_periodic (ps : PeriodicState)
    (validation : Option (Int × List Byte × ℚ)) (firstOutcome : SendResult) :
    PeriodicState :=
  if ps.bus = false then { ps with send_periodic_var := false }
  else if ps.send_periodic_var = true then
    match validation with
    | none => stop_periodic ps
    | some (_, _, interval) =>
      if interval < 10 then stop_periodic ps
      else schedule_periodic_send ps firstOutcome
  else stop_periodic ps

/-- Timer-driven continuation of the periodic job: while a next cycle is
scheduled, its timer fires, leaves the pending state and runs
schedule_periodic_send with the next outcome; with no scheduled cycle
nothing ever runs again. -/
def runPeriodic (ps : PeriodicState) : List SendResult → PeriodicState
  | [] => ps
  | o :: rest =>
    if ps.task_scheduled = true then
      runPeriodic (schedule_periodic_send { ps with task_scheduled := false } o) rest
    else ps

/-- Levels stored in the highlight map are bounded by 8 (shade changed8 is
the last one configured, source steps = 8). -/
def levelsLe8 (s : AppState) : Prop :=
  ∀ p ∈ s.highlighted_rows, p.2.level ≤ 8

/-- Every pending fade timer id was allocated before the current counter. -/
def pendingFresh (s : AppState) : Prop :=
  ∀ q ∈ s.pendingFades, q.1 < s.next_after_id

theorem dget_dset_self {κ α : Type} [DecidableEq κ] (k : κ) (v : α)
    (d : List (κ × α)) : dget k (dset k v d) = some v := by
  induction d with
  | nil => simp [dset, dget]
  | cons p d ih =>
    by_cases h : p.1 = k
    · simp [dset, dget, h]
    · simp [dset, dget, h, ih]

theorem dget_dset_ne {κ α : Type} [DecidableEq κ] {k i : κ} (v : α)
    (d : List (κ × α)) (h : i ≠ k) : dget i (dset k v d) = dget i d := by
  have hk : ¬ k = i := fun hh => h hh.symm
  induction d with
  | nil => simp [dset, dget, hk]
  | cons p d ih =>
    by_cases hp : p.1 = k
    · have hpi : ¬ p.1 = i := by rw [hp]; exact hk
      simp [dset, dget, hp, hpi, hk]
    · by_cases hq : p.1 = i <;> simp [dset, dget, hp, hq, h, ih]

theorem dget_ddel_self {κ α : Type} [DecidableEq κ] (k : κ)
    (d : List (κ × α)) : dget k (ddel k d) = none := by
  induction d with
  | nil => simp [ddel, dget]
  | cons p d ih =>
    by_cases h : p.1 = k
    · simp [ddel, h, ih]
    · simp [ddel, dget, h, ih]

theorem dget_ddel_ne {κ α : Type} [DecidableEq κ] {k i : κ}
    (d : List (κ × α)) (h : i ≠ k) : dget i (ddel k d) = dget i d := by
  induction d with
  | nil => simp [ddel]
  | cons p d ih =>
    by_cases hp : p.1 = k
    · have hpi : ¬ p.1 = i := by rw [hp]; exact fun hh => h hh.symm
      have hk : ¬ k = i := fun hh => h hh.symm
      simp [ddel, dget, hp, hpi, hk, ih]
    · by_cases hq : p.1 = i <;> simp [ddel, dget, hp, hq, h, ih]

theorem dset_length_le {κ α : Type} [DecidableEq κ] (k : κ) (v : α)
    (d : List (κ × α)) : (dset k v d).length ≤ d.length + 1 := by
  induction d with
  | nil => simp [dset]
  | cons p d ih =>
    by_cases h : p.1 = k <;> simp [dset, h] <;> omega

theorem ddel_length_le {κ α : Type} [DecidableEq κ] (k : κ)
    (d : List (κ × α)) : (ddel k d).length ≤ d.length := by
  induction d with
  | nil => simp [ddel]
  | cons p d ih =>
    by_cases h : p.1 = k <;> simp [ddel, h] <;> omega

theorem mem_dset {κ α : Type} [DecidableEq κ] {k : κ} {v : α}
    {d : List (κ × α)} {p : κ × α} (hp : p ∈ dset k v d) :
    p = (k, v) ∨ p ∈ d := by
  induction d with
  | nil => simpa [dset] using hp
  | cons q d ih =>
    by_cases h : q.1 = k
    · simp [dset, h] at hp
      rcases hp with hp | hp
      · exact Or.inl hp
      · exact Or.inr (List.mem_cons_of_mem _ hp)
    · simp [dset, h] at hp
      rcases hp with hp | hp
      · exact Or.inr (hp ▸ List.mem_cons_self _ _)
      · rcases ih hp with hh | hh
        · exact Or.inl hh
        · exact Or.inr (List.mem_cons_of_mem _ hh)

theorem mem_ddel {κ α : Type} [DecidableEq κ] {k : κ}
    {d : List (κ × α)} {p : κ × α} (hp : p ∈ ddel k d) : p ∈ d := by
  induction d with
  | nil => simpa [ddel] using hp
  | cons q d ih =>
    by_cases h : q.1 = k
    · simp [ddel, h] at hp
      exact List.mem_cons_of_mem _ (ih hp)
    · simp [ddel, h] at hp
      rcases hp with hp | hp
      · exact hp ▸ List.mem_cons_self _ _
      · exact List.mem_cons_of_mem _ (ih hp)

theorem dget_mem {κ α : Type} [DecidableEq κ] {k : κ} {v : α} :
    ∀ {d : List (κ × α)}, dget k d = some v → (k, v) ∈ d
  | [], h => by simp [dget] at h
  | p :: d, h => by
    by_cases hp : p.1 = k
    · simp [dget, hp] at h
      have : p = (k, v) := by
        cases p; simp_all
      exact this ▸ List.mem_cons_self _ _
    · simp [dget, hp] at h
      exact List.mem_cons_of_mem _ (dget_mem h)

theorem dget_eq_none_of_forall {κ α : Type} [DecidableEq κ] {k : κ}
    {d : List (κ × α)} (h : ∀ q ∈ d, q.1 ≠ k) : dget k d = none := by
  induction d with
  | nil => rfl
  | cons p d ih =>
    have hp : ¬ p.1 = k := h p (List.mem_cons_self _ _)
    simp [dget, hp]
    exact ih (fun q hq => h q (List.mem_cons_of_mem _ hq))

theorem dget_append {κ α : Type} [DecidableEq κ] (k : κ)
    (a b : List (κ × α)) :
    dget k (a ++ b) = match dget k a with
      | some v => some v
      | none => dget k b := by
  induction a with
  | nil => simp [dget]
  | cons p a ih =>
    by_cases hp : p.1 = k <;> simp [dget, hp, ih]

theorem statsHistoryStep_proj (s : AppState) (c : CanId) (t : ℚ)
    (p : List Byte) :
    (statsHistoryStep s c t p).messages = s.messages ∧
    (statsHistoryStep s c t p).highlighted_rows = s.highlighted_rows ∧
    (statsHistoryStep s c t p).pendingFades = s.pendingFades ∧
    (statsHistoryStep s c t p).next_after_id = s.next_after_id ∧
    (statsHistoryStep s c t p).max_messages = s.max_messages ∧
    (statsHistoryStep s c t p).last_data = s.last_data ∧
    (statsHistoryStep s c t p).highlight_mode = s.highlight_mode ∧
    (statsHistoryStep s c t p).highlight_changes = s.highlight_changes :=
  ⟨rfl, rfl, rfl, rfl, rfl, rfl, rfl, rfl⟩

theorem highlightStep_proj (s : AppState) (c : CanId) (d : List Char) :
    ∀ dir, ((highlightStep s c d dir).1).messages = s.messages ∧
      ((highlightStep s c d dir).1).id_stats = s.id_stats ∧
      ((highlightStep s c d dir).1).max_messages = s.max_messages ∧
      ((highlightStep s c d dir).1).last_data = s.last_data := by
  intro dir
  cases dir with
  | TX => exact ⟨rfl, rfl, rfl, rfl⟩
  | RX =>
    simp only [highlightStep]
    split_ifs with hc hs
    · exact ⟨rfl, rfl, rfl, rfl⟩
    · exact ⟨rfl, rfl, rfl, rfl⟩
    · exact ⟨rfl, rfl, rfl, rfl⟩

theorem lastDataStep_proj (s : AppState) (c : CanId) (d : List Char) :
    ∀ dir, (lastDataStep s c d dir).messages = s.messages ∧
      (lastDataStep s c d dir).id_stats = s.id_stats ∧
      (lastDataStep s c d dir).highlighted_rows = s.highlighted_rows ∧
      (lastDataStep s c d dir).pendingFades = s.pendingFades ∧
      (lastDataStep s c d dir).next_after_id = s.next_after_id ∧
      (lastDataStep s c d dir).max_messages = s.max_messages := by
  intro dir
  cases dir with
  | RX => exact ⟨rfl, rfl, rfl, rfl, rfl, rfl⟩
  | TX => exact ⟨rfl, rfl, rfl, rfl, rfl, rfl⟩

theorem upsertStep_proj (s : AppState) (c : CanId) (ts delta : ℚ)
    (tags : Tags) :
    (upsertStep s c ts delta tags).id_stats = s.id_stats ∧
    (upsertStep s c ts delta tags).highlighted_rows = s.highlighted_rows ∧
    (upsertStep s c ts delta tags).pendingFades = s.pendingFades ∧
    (upsertStep s c ts delta tags).next_after_id = s.next_after_id ∧
    (upsertStep s c ts delta tags).max_messages = s.max_messages ∧
    (upsertStep s c ts delta tags).last_data = s.last_data :=
  ⟨rfl, rfl, rfl, rfl, rfl, rfl⟩

theorem upsertStep_messages (s : AppState) (c : CanId) (ts delta : ℚ)
    (tags : Tags) :
    (upsertStep s c ts delta tags).messages =
      dset c { timestamp := ts, delta := delta, tags := tags } s.messages :=
  rfl

theorem evictStep_proj (s : AppState) :
    (evictStep s).pendingFades = s.pendingFades ∧
    (evictStep s).next_after_id = s.next_after_id ∧
    (evictStep s).max_messages = s.max_messages ∧
    (evictStep s).last_data = s.last_data ∧
    (evictStep s).message_history = s.message_history := by
  unfold evictStep
  split_ifs with h
  · cases hm : s.messages with
    | nil => exact ⟨rfl, rfl, rfl, rfl, rfl⟩
    | cons p rest =>
      cases p
      exact ⟨rfl, rfl, rfl, rfl, rfl⟩
  · exact ⟨rfl, rfl, rfl, rfl, rfl⟩

theorem evictStep_length (s : AppState) (hmax : 1 ≤ s.max_messages)
    (h : s.messages.length ≤ s.max_messages) :
    (evictStep s).messages.length + 1 ≤ s.max_messages := by
  unfold evictStep
  split_ifs with hge
  · cases hm : s.messages with
    | nil =>
      rw [hm] at hge
      simp at hge
      omega
    | cons p rest =>
      cases p with
      | mk k v =>
        rw [hm] at h
        simp at h
        have h1 : ddel k ((k, v) :: rest) = ddel k rest := by simp [ddel]
        have h2 : (ddel k rest).length ≤ rest.length := ddel_length_le k rest
        simp [hm, h1]
        omega
  · push_neg at hge
    omega

theorem display_message_messages_le (s : AppState) (m : Msg) (dir : Dir)
    (hmax : 1 ≤ s.max_messages) (h : s.messages.length ≤ s.max_messages) :
    (display_message s m dir).messages.length ≤ s.max_messages := by
  unfold display_message
  split_ifs with hg
  · exact h
  · dsimp only
    set cid := natHex m.arbitration_id with hcid
    set s2 := { s with
      message_count := s.message_count + 1,
      last_message_timestamp := some m.timestamp } with hs2
    set s3 := statsHistoryStep s2 cid m.timestamp m.data with hs3
    set hres := highlightStep s3 cid (formatData m.data) dir with hhres
    set s4 := lastDataStep hres.1 cid (formatData m.data) dir with hs4
    set s5 := evictStep s4 with hs5
    have e4m : s4.messages = s.messages := by
      rw [hs4, (lastDataStep_proj _ _ _ dir).1, hhres,
        (highlightStep_proj _ _ _ dir).1, hs3, (statsHistoryStep_proj _ _ _ _).1]
    have e4mx : s4.max_messages = s.max_messages := by
      rw [hs4, (lastDataStep_proj _ _ _ dir).2.2.2.2.2, hhres,
        (highlightStep_proj _ _ _ dir).2.2.1, hs3,
        (statsHistoryStep_proj _ _ _ _).2.2.2.2.1]
    have h5 : s5.messages.length + 1 ≤ s.max_messages := by
      rw [hs5]
      have := evictStep_length s4 (by rw [e4mx]; exact hmax)
        (by rw [e4m, e4mx]; exact h)
      rw [e4mx] at this
      exact this
    calc (upsertStep s5 cid m.timestamp (deltaOf s m.timestamp)
            hres.2).messages.length
        = (dset cid _ s5.messages).length := by rw [upsertStep_messages]
      _ ≤ s5.messages.length + 1 := dset_length_le _ _ _
      _ ≤ s.max_messages := h5

theorem display_message_max (s : AppState) (m : Msg) (dir : Dir) :
    (display_message s m dir).max_messages = s.max_messages := by
  unfold display_message
  split_ifs with hg
  · rfl
  · dsimp only
    rw [(upsertStep_proj _ _ _ _ _).2.2.2.2.1, (evictStep_proj _).2.2.1,
      (lastDataStep_proj _ _ _ dir).2.2.2.2.2,
      (highlightStep_proj _ _ _ dir).2.2.1,
      (statsHistoryStep_proj _ _ _ _).2.2.2.2.1]

theorem processFrames_length_le (l : List (Msg × Dir)) :
    ∀ s : AppState, 1 ≤ s.max_messages → s.messages.length ≤ s.max_messages →
      (processFrames s l).messages.length ≤ s.max_messages ∧
      (processFrames s l).max_messages = s.max_messages := by
  induction l with
  | nil => exact fun s _ h2 => ⟨h2, rfl⟩
  | cons e rest ih =>
    intro s h1 h2
    cases e with
    | mk m d =>
      have hstep := display_message_messages_le s m d h1 h2
      have hmax := display_message_max s m d
      have hrec := ih (display_message s m d) (by rw [hmax]; exact h1)
        (by rw [hmax]; exact hstep)
      rw [hmax] at hrec
      simpa [processFrames] using hrec

/-- C1: for every sequence of frames processed by display_message starting
from the initial state (whose capacity max_messages is 500), the message
store holds at most max_messages records; since the quantification ranges
over every frame sequence, the bound holds after every intermediate upsert
as well. -/
theorem message_store_bounded (evs : List (Msg × Dir)) :
    (processFrames (initialState 500 0) evs).messages.length ≤
      (initialState 500 0).max_messages :=
  (processFrames_length_le evs (initialState 500 0)
    (by simp [initialState]) (by simp [initialState])).1

/-- C2 evaluation at the failing input: with capacity 3, after inserting
identifiers A (0xA), B (0xB), C (0xC) and then twice more processing frames
for the already-present identifier A, the store is [C, A] rather than
[A, B, C]: the upsert at capacity evicted A itself on its first update
(moving A to the end and erasing its statistics) and evicted B on the
second update even though no unseen identifier ever arrived, and B's
IdStats entry is gone. -/
theorem upsert_at_capacity_evicts_on_update :
    (processFrames (initialState 3 0)
        [(mkMsg 10 [1] 0, Dir.RX), (mkMsg 11 [2] 1, Dir.RX),
         (mkMsg 12 [3] 2, Dir.RX), (mkMsg 10 [1] 3, Dir.RX),
         (mkMsg 10 [1] 4, Dir.RX)]).messages.map Prod.fst
      = [natHex 12, natHex 10] ∧
    dget (natHex 11) (processFrames (initialState 3 0)
        [(mkMsg 10 [1] 0, Dir.RX), (mkMsg 11 [2] 1, Dir.RX),
         (mkMsg 12 [3] 2, Dir.RX), (mkMsg 10 [1] 3, Dir.RX),
         (mkMsg 10 [1] 4, Dir.RX)]).id_stats = none := by
  constructor
  · decide
  · decide

/-- C3 counterexample: with capacity 2, a change on identifier A (0xA)
schedules fade timer 0, and the later eviction of A removes its record,
statistics and highlight entries but leaves timer 0 pending, so eviction
does not cancel the pending deferred fade transition. -/
theorem evicted_pending_fade_not_cancelled :
    dget (natHex 10) (processFrames (initialState 2 0)
        [(mkMsg 10 [1] 0, Dir.RX), (mkMsg 10 [5] 1, Dir.RX),
         (mkMsg 11 [2] 2, Dir.RX), (mkMsg 12 [3] 3, Dir.RX)]).messages
      = none ∧
    dget (natHex 10) (processFrames (initialState 2 0)
        [(mkMsg 10 [1] 0, Dir.RX), (mkMsg 10 [5] 1, Dir.RX),
         (mkMsg 11 [2] 2, Dir.RX), (mkMsg 12 [3] 3, Dir.RX)]).highlighted_rows
      = none ∧
    (0, natHex 10) ∈ (processFrames (initialState 2 0)
        [(mkMsg 10 [1] 0, Dir.RX), (mkMsg 10 [5] 1, Dir.RX),
         (mkMsg 11 [2] 2, Dir.RX), (mkMsg 12 [3] 3, Dir.RX)]).pendingFades := by
  refine ⟨?_, ?_, ?_⟩ <;> decide

/-- C3 amended: eviction removes the identifier's MessageRecord, IdStats
entry and HighlightState entry together and leaves the pending-timer set
unchanged (it does not cancel the deferred fade); instead fade_highlight
starts with a guard, so a fade step firing for an identifier absent from
the message store or from the highlight map leaves the state unchanged,
and hence no fade step acts on the identifier while it stays evicted. -/
theorem eviction_removes_entries_fade_noop (s : AppState) (k : CanId)
    (r : MsgRecord) (rest : List (CanId × MsgRecord))
    (hm : s.messages = (k, r) :: rest)
    (hcap : s.max_messages ≤ s.messages.length) :
    dget k (evictStep s).messages = none ∧
    dget k (evictStep s).id_stats = none ∧
    dget k (evictStep s).highlighted_rows = none ∧
    (evictStep s).pendingFades = s.pendingFades ∧
    (∀ s2 : AppState, dget k s2.messages = none → fade_highlight s2 k = s2) ∧
    (∀ s2 : AppState, dget k s2.highlighted_rows = none →
      fade_highlight s2 k = s2) := by
  have hge : s.messages.length ≥ s.max_messages := hcap
  unfold evictStep
  rw [if_pos hge, hm]
  refine ⟨dget_ddel_self _ _, dget_ddel_self _ _, dget_ddel_self _ _, rfl,
    ?_, ?_⟩
  · intro s2 h2
    unfold fade_highlight
    rw [h2]
  · intro s2 h2
    unfold fade_highlight
    rw [h2]
    cases dget k s2.messages <;> rfl

/-- C3 witness for the amended statement, at a one-entry store at capacity
with a pending fade timer for the stored identifier. -/
theorem eviction_removes_entries_fade_noop_witness :
    dget (natHex 10) (evictStep { initialState 1 0 with
        messages := [(natHex 10, { timestamp := 0, delta := 0, tags := Tags.changed 1 })],
        id_stats := [(natHex 10, { count := 1, first_timestamp := 0, last_timestamp := 0 })],
        highlighted_rows := [(natHex 10, { level := 1, after_id := 0 })],
        pendingFades := [(0, natHex 10)], next_after_id := 1 }).messages = none ∧
    (evictStep { initialState 1 0 with
        messages := [(natHex 10, { timestamp := 0, delta := 0, tags := Tags.changed 1 })],
        id_stats := [(natHex 10, { count := 1, first_timestamp := 0, last_timestamp := 0 })],
        highlighted_rows := [(natHex 10, { level := 1, after_id := 0 })],
        pendingFades := [(0, natHex 10)], next_after_id := 1 }).pendingFades
      = [(0, natHex 10)] := by
  have h := eviction_removes_entries_fade_noop { initialState 1 0 with
      messages := [(natHex 10, { timestamp := 0, delta := 0, tags := Tags.changed 1 })],
      id_stats := [(natHex 10, { count := 1, first_timestamp := 0, last_timestamp := 0 })],
      highlighted_rows := [(natHex 10, { level := 1, after_id := 0 })],
      pendingFades := [(0, natHex 10)], next_after_id := 1 }
    (natHex 10) { timestamp := 0, delta := 0, tags := Tags.changed 1 } []
    rfl (by decide)
  exact ⟨h.1, h.2.2.2.1⟩

/-- C5: the reported per-identifier frequency equals count divided by the
timestamp span when count is at least 2 and the span is positive, and 0
otherwise (fewer than two samples, or a zero or negative span, so a zero
duration never divides); five frames for one identifier spanning exactly
2.0 seconds yield statistics count = 5, span 2, and frequency 5/2 = 2.5. -/
theorem frequency_spec (st : IdStats) :
    (st.count ≥ 2 → st.last_timestamp - st.first_timestamp > 0 →
      frequency st =
        (st.count : ℚ) / (st.last_timestamp - st.first_timestamp)) ∧
    (st.count < 2 ∨ st.last_timestamp - st.first_timestamp ≤ 0 →
      frequency st = 0) ∧
    dget (natHex 10) (processFrames (initialState 500 0)
        [(mkMsg 10 [1] 0, Dir.RX), (mkMsg 10 [1] (1/2), Dir.RX),
         (mkMsg 10 [1] 1, Dir.RX), (mkMsg 10 [1] (3/2), Dir.RX),
         (mkMsg 10 [1] 2, Dir.RX)]).id_stats
      = some { count := 5, first_timestamp := 0, last_timestamp := 2 } ∧
    frequency { count := 5, first_timestamp := 0, last_timestamp := 2 }
      = 5 / 2 := by
  refine ⟨?_, ?_, ?_, ?_⟩
  · intro h1 h2
    simp [frequency, h1, h2]
  · intro h
    rcases h with h | h
    · have h1 : ¬ st.count ≥ 2 := by omega
      simp [frequency, h1]
    · by_cases h1 : st.count ≥ 2
      · have h2 : ¬ st.last_timestamp - st.first_timestamp > 0 := not_lt.mpr h
        simp [frequency, h1, h2]
      · simp [frequency, h1]
  · decide
  · norm_num [frequency]

/-- C5 witness: the general formula applied at count 5 over a span of 2
seconds. -/
theorem frequency_spec_witness :
    frequency { count := 5, first_timestamp := 0, last_timestamp := 2 }
      = ((5 : Nat) : ℚ) / ((2 : ℚ) - 0) :=
  (frequency_spec { count := 5, first_timestamp := 0, last_timestamp := 2 }).1
    (by decide) (by simp)

/-- C7 counterexample: after processing one frame for identifier A (0xA)
and invoking clear_treeview, the per-identifier statistics entry for A is
still present, refuting the claim that the explicit clear leaves no
per-identifier entry in any component. -/
theorem clear_treeview_keeps_id_stats :
    dget (natHex 10) (clear_treeview
        (display_message (initialState 500 0) (mkMsg 10 [1] 1) Dir.RX)).id_stats
      = some { count := 1, first_timestamp := 1, last_timestamp := 1 } := by
  decide

/-- C7 amended: clear_treeview empties the message store, the history
buffers, the last-payload records, the highlight entries and the display
modes and resets the last global timestamp, but leaves the per-identifier
statistics (count, first/last timestamps) untouched; those are emptied
only by the separate reset_stats operation. -/
theorem clear_treeview_spec (s : AppState) :
    (clear_treeview s).messages = [] ∧
    (clear_treeview s).message_history = [] ∧
    (clear_treeview s).last_data = [] ∧
    (clear_treeview s).highlighted_rows = [] ∧
    (clear_treeview s).display_mode = [] ∧
    (clear_treeview s).last_message_timestamp = none ∧
    (clear_treeview s).id_stats = s.id_stats ∧
    (reset_stats s).id_stats = [] :=
  ⟨rfl, rfl, rfl, rfl, rfl, rfl, rfl, rfl⟩

/-- C9: in the Receiver loop, a received frame is enqueued and resets the
consecutive-error counter to 0; a transient CAN error increments the
counter and, once the incremented counter exceeds the threshold 10, a
single fatal error value is enqueued and the loop terminates (ignoring the
rest of the trace); a non-CAN error while running is enqueued and
terminates immediately; in particular 11 consecutive CAN errors from a
fresh counter produce exactly one fatal marker, while 10 errors followed
by a frame recover with the counter reset to 0. -/
theorem receive_loop_spec :
    (∀ (m : Msg) (rest : List RecvEvent) (c : Nat) (q : List QItem),
      receive_loop (RecvEvent.frame m :: rest) c q =
        receive_loop rest 0 (q ++ [QItem.msg m])) ∧
    (∀ rest c q, c < 10 →
      receive_loop (RecvEvent.canErr :: rest) c q =
        receive_loop rest (c + 1) q) ∧
    (∀ rest c q, c ≥ 10 →
      receive_loop (RecvEvent.canErr :: rest) c q =
        (q ++ [QItem.fatalErr], c + 1)) ∧
    (∀ rest c q, receive_loop (RecvEvent.otherErr :: rest) c q =
      (q ++ [QItem.otherErr], c)) ∧
    (∀ q, receive_loop (List.replicate 11 RecvEvent.canErr) 0 q =
      (q ++ [QItem.fatalErr], 11)) ∧
    (∀ (m : Msg) (q : List QItem) (rest : List RecvEvent),
      receive_loop
          (List.replicate 10 RecvEvent.canErr ++ RecvEvent.frame m :: rest) 0 q
        = receive_loop rest 0 (q ++ [QItem.msg m])) := by
  refine ⟨fun m rest c q => rfl, ?_, ?_, fun rest c q => rfl, ?_, ?_⟩
  · intro rest c q hc
    have h : ¬ c + 1 > 10 := by omega
    simp [receive_loop, h]
  · intro rest c q hc
    have h : c + 1 > 10 := by omega
    simp [receive_loop, h]
  · intro q
    rfl
  · intro m q rest
    rfl

/-- C9 witness: the counter equations at counters 3 and 10. -/
theorem receive_loop_spec_witness :
    receive_loop [RecvEvent.canErr] 3 [] = receive_loop [] 4 [] ∧
    receive_loop [RecvEvent.canErr] 10 [] = ([QItem.fatalErr], 11) :=
  ⟨receive_loop_spec.2.1 [] 3 [] (by decide),
   by simpa using receive_loop_spec.2.2.1 [] 10 [] (by decide)⟩

theorem fromHex_length : ∀ l : List Char, (fromHex l).length = l.length / 2
  | [] => by simp [fromHex]
  | [c] => by simp [fromHex]
  | c1 :: c2 :: rest => by
    have ih := fromHex_length rest
    simp [fromHex, ih]
    omega

/-- C10: with a valid identifier and positive interval, an empty data field
is accepted and yields exactly max_bytes zero bytes (8 in classic mode, 64
in FD mode), not an empty payload; a non-empty data field with a non-hex
character, an odd number of hex digits, or more than max_bytes bytes is
rejected and send_once sends nothing. -/
theorem validate_send_inputs_spec (can_id : Int) (ext fd : Bool)
    (interval : ℚ) (hid0 : 0 ≤ can_id)
    (hid1 : can_id ≤ (if ext = true then (0x1FFFFFFF : Int) else 0x7FF))
    (hiv : 0 < interval) :
    validate_send_inputs can_id ext fd [] interval =
      some (can_id, List.replicate (if fd = true then 64 else 8) (0 : Byte),
        interval) ∧
    (List.replicate (if fd = true then 64 else 8) (0 : Byte)).length =
      (if fd = true then 64 else 8) ∧
    (∀ text : List Char, text ≠ [] → ¬ text.all isHexDigitChar = true →
      validate_send_inputs can_id ext fd text interval = none ∧
      send_once true can_id ext fd text interval = none) ∧
    (∀ text : List Char, text ≠ [] → text.length % 2 = 1 →
      validate_send_inputs can_id ext fd text interval = none ∧
      send_once true can_id ext fd text interval = none) ∧
    (∀ text : List Char, text ≠ [] → text.all isHexDigitChar = true →
      text.length % 2 = 0 → text.length > 2 * (if fd = true then 64 else 8) →
      validate_send_inputs can_id ext fd text interval = none ∧
      send_once true can_id ext fd text interval = none) := by
  have hguard : ¬ (can_id < 0 ∨ can_id >
      (if ext = true then (0x1FFFFFFF : Int) else 0x7FF)) := by
    push_neg
    exact ⟨hid0, hid1⟩
  have hivle : ¬ interval ≤ 0 := not_le.mpr hiv
  refine ⟨?_, ?_, ?_, ?_, ?_⟩
  · unfold validate_send_inputs
    rw [if_neg hguard]
    have hlen : ¬ (List.replicate (if fd = true then 64 else 8)
        (0 : Byte)).length > (if fd = true then 64 else 8) := by
      simp
    simp [hlen, hivle]
  · simp
  · intro text ht hhex
    have hv : validate_send_inputs can_id ext fd text interval = none := by
      unfold validate_send_inputs
      rw [if_neg hguard]
      simp only [if_neg ht, if_pos hhex]
    refine ⟨hv, ?_⟩
    unfold send_once
    rw [hv]
    rfl
  · intro text ht hodd
    have heven : ¬ text.length % 2 = 0 := by omega
    have hv : validate_send_inputs can_id ext fd text interval = none := by
      unfold validate_send_inputs
      rw [if_neg hguard]
      by_cases hhex : ¬ text.all isHexDigitChar = true
      · simp only [if_neg ht, if_pos hhex]
      · simp only [if_neg ht, if_neg hhex]
        rw [if_pos heven]
    refine ⟨hv, ?_⟩
    unfold send_once
    rw [hv]
    rfl
  · intro text ht hhex heven hlong
    have hhex2 : ¬ ¬ text.all isHexDigitChar = true := by simp [hhex]
    have heven2 : ¬ ¬ text.length % 2 = 0 := by omega
    have hlen : (fromHex text).length > (if fd = true then 64 else 8) := by
      rw [fromHex_length]
      omega
    have hv : validate_send_inputs can_id ext fd text interval = none := by
      unfold validate_send_inputs
      rw [if_neg hguard]
      simp only [if_neg ht, if_neg hhex2, if_neg heven2]
      rw [if_pos hlen]
    refine ⟨hv, ?_⟩
    unfold send_once
    rw [hv]
    rfl

/-- C10 witness: classic mode, id 1, interval 100: a blank data entry gives
the 8-byte zero payload, and the one-character entry 1 (odd digit count) is
rejected. -/
theorem validate_send_inputs_spec_witness :
    validate_send_inputs 1 false false [] 100 =
      some (1, List.replicate 8 (0 : Byte), 100) ∧
    validate_send_inputs 1 false false [Char.ofNat 49] 100 = none := by
  have h := validate_send_inputs_spec 1 false false 100 (by decide)
    (by decide) (by decide)
  exact ⟨h.1, (h.2.2.2.1 [Char.ofNat 49] (by decide) (by decide)).1⟩

theorem hexDigitChar_inj_fin :
    ∀ a b : Fin 16, hexDigitChar a.val = hexDigitChar b.val → a = b := by
  decide

theorem hexByteChars_inj (a b : Byte) (h : hexByteChars a = hexByteChars b) :
    a = b := by
  have h1 : hexDigitChar (a.val / 16) = hexDigitChar (b.val / 16) := by
    simpa [hexByteChars] using congrArg (fun l => l.headI) h
  have h2 : hexDigitChar (a.val % 16) = hexDigitChar (b.val % 16) := by
    simpa [hexByteChars] using congrArg (fun l => l.getLastI) h
  have ha := a.isLt
  have hb := b.isLt
  have d1 := hexDigitChar_inj_fin ⟨a.val / 16, by omega⟩ ⟨b.val / 16, by omega⟩ h1
  have d2 := hexDigitChar_inj_fin ⟨a.val % 16, by omega⟩ ⟨b.val % 16, by omega⟩ h2
  have e1 : a.val / 16 = b.val / 16 := congrArg Fin.val d1
  have e2 : a.val % 16 = b.val % 16 := congrArg Fin.val d2
  have : a.val = b.val := by omega
  exact Fin.ext this

theorem hexByteChars_length (b : Byte) : (hexByteChars b).length = 2 := rfl

theorem joinSpace_length_pos (l : List (List Char)) (hl : l ≠ [])
    (h2 : ∀ c ∈ l, c.length = 2) : 2 ≤ (joinSpace l).length := by
  cases l with
  | nil => exact absurd rfl hl
  | cons x r =>
    cases r with
    | nil =>
      have := h2 x (List.mem_cons_self _ _)
      simp [joinSpace, this]
    | cons y r2 =>
      have := h2 x (List.mem_cons_self _ _)
      simp [joinSpace, this]

theorem joinSpace_inj : ∀ l1 l2 : List (List Char),
    (∀ c ∈ l1, c.length = 2) → (∀ c ∈ l2, c.length = 2) →
    joinSpace l1 = joinSpace l2 → l1 = l2
  | [], [], _, _, _ => rfl
  | [], x :: xs, _, h2, h => by
    have := joinSpace_length_pos (x :: xs) (by simp) h2
    rw [← h] at this
    simp [joinSpace] at this
  | x :: xs, [], h1, _, h => by
    have := joinSpace_length_pos (x :: xs) (by simp) h1
    rw [h] at this
    simp [joinSpace] at this
  | [x], [y], _, _, h => by
    simpa [joinSpace] using h
  | [x], y :: z :: r, h1, h2, h => by
    have hx : x.length = 2 := h1 x (List.mem_cons_self _ _)
    have hy : y.length = 2 := h2 y (List.mem_cons_self _ _)
    have hz : 2 ≤ (joinSpace (z :: r)).length :=
      joinSpace_length_pos (z :: r) (by simp)
        (fun c hc => h2 c (List.mem_cons_of_mem _ hc))
    have hlen := congrArg List.length h
    simp only [joinSpace, List.length_append, List.length_cons, hx, hy]
      at hlen
    omega
  | x :: x2 :: r1, [y], h1, h2, h => by
    have hx : x.length = 2 := h1 x (List.mem_cons_self _ _)
    have hy : y.length = 2 := h2 y (List.mem_cons_self _ _)
    have hz : 2 ≤ (joinSpace (x2 :: r1)).length :=
      joinSpace_length_pos (x2 :: r1) (by simp)
        (fun c hc => h1 c (List.mem_cons_of_mem _ hc))
    have hlen := congrArg List.length h
    simp only [joinSpace, List.length_append, List.length_cons, hx, hy]
      at hlen
    omega
  | x :: x2 :: r1, y :: y2 :: r2, h1, h2, h => by
    have hx : x.length = 2 := h1 x (List.mem_cons_self _ _)
    have hy : y.length = 2 := h2 y (List.mem_cons_self _ _)
    have hj : x ++ (spaceChar :: joinSpace (x2 :: r1)) =
        y ++ (spaceChar :: joinSpace (y2 :: r2)) := by
      simpa [joinSpace] using h
    have hlen : x.length = y.length := by rw [hx, hy]
    have hsplit := List.append_inj hj hlen
    have htail : joinSpace (x2 :: r1) = joinSpace (y2 :: r2) := by
      have := hsplit.2
      simpa using this
    have hrec := joinSpace_inj (x2 :: r1) (y2 :: r2)
      (fun c hc => h1 c (List.mem_cons_of_mem _ hc))
      (fun c hc => h2 c (List.mem_cons_of_mem _ hc)) htail
    rw [hsplit.1, hrec]

theorem formatData_inj (d1 d2 : List Byte)
    (h : formatData d1 = formatData d2) : d1 = d2 := by
  have hm : d1.map hexByteChars = d2.map hexByteChars :=
    joinSpace_inj _ _
      (by intro c hc; rcases List.mem_map.mp hc with ⟨b, _, hb⟩;
          rw [← hb]; exact hexByteChars_length b)
      (by intro c hc; rcases List.mem_map.mp hc with ⟨b, _, hb⟩;
          rw [← hb]; exact hexByteChars_length b) h
  exact List.map_injective_iff.mpr hexByteChars_inj hm

theorem evictStep_id (s : AppState) (h : s.messages.length < s.max_messages) :
    evictStep s = s := by
  unfold evictStep
  rw [if_neg (not_le.mpr h)]

theorem evictStep_highlighted (s : AppState) :
    (evictStep s).highlighted_rows = s.highlighted_rows ∨
    ∃ k, (evictStep s).highlighted_rows = ddel k s.highlighted_rows := by
  unfold evictStep
  split_ifs with h
  · cases hm : s.messages with
    | nil => exact Or.inl rfl
    | cons p rest =>
      cases p
      exact Or.inr ⟨_, rfl⟩
  · exact Or.inl rfl

theorem highlightStep_cases (s : AppState) (c : CanId) (d : List Char) :
    ∀ dir,
    ((highlightStep s c d dir).1.highlighted_rows = s.highlighted_rows ∧
     (highlightStep s c d dir).1.pendingFades = s.pendingFades ∧
     (highlightStep s c d dir).1.next_after_id = s.next_after_id) ∨
    (dir = Dir.RX ∧ s.highlight_changes = true ∧
     (s.highlight_mode = HlMode.message ∨
       (s.highlight_mode = HlMode.messageChange ∧
         ∃ prev, dget c s.last_data = some prev ∧ prev ≠ d)) ∧
     (highlightStep s c d dir).1.highlighted_rows =
       dset c { level := 1, after_id := s.next_after_id }
         s.highlighted_rows ∧
     (highlightStep s c d dir).1.next_after_id = s.next_after_id + 1 ∧
     ∃ pending1,
       ((dget c s.highlighted_rows = none ∧ pending1 = s.pendingFades) ∨
        (∃ h, dget c s.highlighted_rows = some h ∧
          pending1 = ddel h.after_id s.pendingFades)) ∧
       (highlightStep s c d dir).1.pendingFades =
         pending1 ++ [(s.next_after_id, c)]) := by
  intro dir
  cases dir with
  | TX => exact Or.inl ⟨rfl, rfl, rfl⟩
  | RX =>
    simp only [highlightStep]
    split_ifs with hc hs
    · simp only [Bool.or_eq_true, Bool.and_eq_true, decide_eq_true_eq] at hs
      have hmode : s.highlight_mode = HlMode.message ∨
          (s.highlight_mode = HlMode.messageChange ∧
            ∃ prev, dget c s.last_data = some prev ∧ prev ≠ d) := by
        rcases hs with hs | ⟨hs1, hs2⟩
        · exact Or.inl hs
        · refine Or.inr ⟨hs1, ?_⟩
          rcases hld : dget c s.last_data with _ | prev
          · rw [hld] at hs2
            simp at hs2
          · rw [hld] at hs2
            simp at hs2
            exact ⟨prev, rfl, hs2⟩
      right
      rcases hhl : dget c s.highlighted_rows with _ | h
      · exact ⟨by trivial, hc, hmode, rfl, rfl, s.pendingFades,
          Or.inl ⟨by trivial, rfl⟩, rfl⟩
      · exact ⟨by trivial, hc, hmode, rfl, rfl, ddel h.after_id s.pendingFades,
          Or.inr ⟨h, by trivial, rfl⟩, rfl⟩
    · exact Or.inl ⟨rfl, rfl, rfl⟩
    · exact Or.inl ⟨rfl, rfl, rfl⟩

theorem fade_highlight_fire_low (s : AppState) (c : CanId) (r : MsgRecord)
    (h : HlEntry) (hm : dget c s.messages = some r)
    (hh : dget c s.highlighted_rows = some h) (hl : h.level ≤ 7) :
    fade_highlight s c = { s with
      highlighted_rows :=
        dset c { level := h.level + 1, after_id := s.next_after_id }
          s.highlighted_rows,
      pendingFades := s.pendingFades ++ [(s.next_after_id, c)],
      next_after_id := s.next_after_id + 1,
      messages :=
        dset c { r with tags := Tags.changed (h.level + 1) } s.messages } := by
  unfold fade_highlight
  rw [hm, hh]
  dsimp only
  rw [if_pos hl]

theorem fade_highlight_fire_high (s : AppState) (c : CanId) (r : MsgRecord)
    (h : HlEntry) (hm : dget c s.messages = some r)
    (hh : dget c s.highlighted_rows = some h) (hl : ¬ h.level ≤ 7) :
    fade_highlight s c = { s with
      highlighted_rows := ddel c s.highlighted_rows,
      messages := dset c { r with tags := Tags.noTag } s.messages } := by
  unfold fade_highlight
  rw [hm, hh]
  dsimp only
  rw [if_neg hl]

theorem fade_highlight_noop (s : AppState) (c : CanId)
    (h : dget c s.messages = none ∨ dget c s.highlighted_rows = none) :
    fade_highlight s c = s := by
  unfold fade_highlight
  rcases h with h | h
  · rw [h]
  · rw [h]
    cases dget c s.messages <;> rfl

theorem display_highlighted_cases (s : AppState) (m : Msg) (dir : Dir)
    (i : CanId) :
    dget i (display_message s m dir).highlighted_rows
        = dget i s.highlighted_rows ∨
    dget i (display_message s m dir).highlighted_rows = none ∨
    (dir = Dir.RX ∧ i = natHex m.arbitration_id ∧
      dget i (display_message s m dir).highlighted_rows =
        some { level := 1, after_id := s.next_after_id } ∧
      s.highlight_changes = true ∧
      (s.highlight_mode = HlMode.message ∨
        (s.highlight_mode = HlMode.messageChange ∧
          ∃ prev, dget i s.last_data = some prev ∧
            prev ≠ formatData m.data))) := by
  unfold display_message
  split_ifs with hg
  · exact Or.inl rfl
  · dsimp only
    set S3 := statsHistoryStep { s with
      message_count := s.message_count + 1,
      last_message_timestamp := some m.timestamp }
      (natHex m.arbitration_id) m.timestamp m.data with hS3
    rw [(upsertStep_proj _ _ _ _ _).2.1]
    rcases highlightStep_cases S3 (natHex m.arbitration_id)
        (formatData m.data) dir with ⟨h1, _, _⟩ |
        ⟨hdir, hc, hmode, hhl, _, _, _, _⟩
    · rcases evictStep_highlighted (lastDataStep
          (highlightStep S3 (natHex m.arbitration_id)
            (formatData m.data) dir).1
          (natHex m.arbitration_id) (formatData m.data) dir) with he | ⟨k, he⟩
      · rw [he, (lastDataStep_proj _ _ _ dir).2.2.1, h1]
        exact Or.inl rfl
      · rw [he, (lastDataStep_proj _ _ _ dir).2.2.1, h1]
        by_cases hik : i = k
        · rw [hik]
          exact Or.inr (Or.inl (dget_ddel_self _ _))
        · rw [dget_ddel_ne _ hik]
          exact Or.inl rfl
    · have hc2 : s.highlight_changes = true := hc
      have hmode2 : s.highlight_mode = HlMode.message ∨
          (s.highlight_mode = HlMode.messageChange ∧
            ∃ prev, dget (natHex m.arbitration_id) s.last_data = some prev ∧
              prev ≠ formatData m.data) := hmode
      rcases evictStep_highlighted (lastDataStep
          (highlightStep S3 (natHex m.arbitration_id)
            (formatData m.data) dir).1
          (natHex m.arbitration_id) (formatData m.data) dir) with he | ⟨k, he⟩
      · rw [he, (lastDataStep_proj _ _ _ dir).2.2.1, hhl]
        by_cases hic : i = natHex m.arbitration_id
        · rw [hic]
          refine Or.inr (Or.inr ⟨hdir, rfl, ?_, hc2, ?_⟩)
          · exact dget_dset_self _ _ _
          · exact hmode2
        · rw [dget_dset_ne _ _ hic]
          exact Or.inl rfl
      · rw [he, (lastDataStep_proj _ _ _ dir).2.2.1, hhl]
        by_cases hik : i = k
        · rw [hik]
          exact Or.inr (Or.inl (dget_ddel_self _ _))
        · rw [dget_ddel_ne _ hik]
          by_cases hic : i = natHex m.arbitration_id
          · rw [hic]
            refine Or.inr (Or.inr ⟨hdir, rfl, ?_, hc2, ?_⟩)
            · exact dget_dset_self _ _ _
            · exact hmode2
          · rw [dget_dset_ne _ _ hic]
            exact Or.inl rfl

theorem highlightStep_fire (s : AppState) (c : CanId) (d : List Char)
    (hc : s.highlight_changes = true)
    (hmode : s.highlight_mode = HlMode.messageChange)
    (prev : List Char) (hprev : dget c s.last_data = some prev)
    (hne : prev ≠ d) (h : HlEntry)
    (hh : dget c s.highlighted_rows = some h) :
    highlightStep s c d Dir.RX =
      ({ s with
          highlighted_rows :=
            dset c { level := 1, after_id := s.next_after_id }
              s.highlighted_rows,
          pendingFades :=
            ddel h.after_id s.pendingFades ++ [(s.next_after_id, c)],
          next_after_id := s.next_after_id + 1 }, Tags.changed 1) := by
  have hdec : decide (prev ≠ d) = true := by simp [hne]
  simp [highlightStep, hprev, hh, hmode, hdec, hc]

theorem display_highlighted_mem (s : AppState) (m : Msg) (dir : Dir) :
    ∀ p ∈ (display_message s m dir).highlighted_rows,
      p ∈ s.highlighted_rows ∨ p.2.level = 1 := by
  unfold display_message
  split_ifs with hg
  · exact fun p hp => Or.inl hp
  · dsimp only
    set S3 := statsHistoryStep { s with
      message_count := s.message_count + 1,
      last_message_timestamp := some m.timestamp }
      (natHex m.arbitration_id) m.timestamp m.data with hS3
    intro p hp
    rw [(upsertStep_proj _ _ _ _ _).2.1] at hp
    rcases evictStep_highlighted (lastDataStep
        (highlightStep S3 (natHex m.arbitration_id)
          (formatData m.data) dir).1
        (natHex m.arbitration_id) (formatData m.data) dir) with he | ⟨k, he⟩ <;>
      rw [he, (lastDataStep_proj _ _ _ dir).2.2.1] at hp
    · rcases highlightStep_cases S3 (natHex m.arbitration_id)
          (formatData m.data) dir with ⟨h1, _, _⟩ |
          ⟨_, _, _, hhl, _, _, _, _⟩
      · rw [h1] at hp
        exact Or.inl hp
      · rw [hhl] at hp
        rcases mem_dset hp with hp2 | hp2
        · right
          rw [hp2]
        · exact Or.inl hp2
    · have hp2 := mem_ddel hp
      rcases highlightStep_cases S3 (natHex m.arbitration_id)
          (formatData m.data) dir with ⟨h1, _, _⟩ |
          ⟨_, _, _, hhl, _, _, _, _⟩
      · rw [h1] at hp2
        exact Or.inl hp2
      · rw [hhl] at hp2
        rcases mem_dset hp2 with hp3 | hp3
        · right
          rw [hp3]
        · exact Or.inl hp3

theorem fade_highlighted_mem (s : AppState) (c : CanId) :
    ∀ p ∈ (fade_highlight s c).highlighted_rows,
      p ∈ s.highlighted_rows ∨
      ∃ h : HlEntry, dget c s.highlighted_rows = some h ∧
        p.2.level = h.level + 1 ∧ h.level ≤ 7 := by
  intro p hp
  rcases hm : dget c s.messages with _ | r
  · rw [fade_highlight_noop s c (Or.inl hm)] at hp
    exact Or.inl hp
  · rcases hh : dget c s.highlighted_rows with _ | h
    · rw [fade_highlight_noop s c (Or.inr hh)] at hp
      exact Or.inl hp
    · by_cases hl : h.level ≤ 7
      · rw [fade_highlight_fire_low s c r h hm hh hl] at hp
        dsimp only at hp
        rcases mem_dset hp with hp2 | hp2
        · right
          exact ⟨h, rfl, by rw [hp2], hl⟩
        · exact Or.inl hp2
      · rw [fade_highlight_fire_high s c r h hm hh hl] at hp
        dsimp only at hp
        exact Or.inl (mem_ddel hp)

theorem display_fire (s : AppState) (m : Msg) (h : HlEntry)
    (prev : List Char)
    (hmode : s.highlight_mode = HlMode.messageChange) (hp : s.paused = false)
    (hf : s.filter_ids = []) (hc : s.highlight_changes = true)
    (hprev : dget (natHex m.arbitration_id) s.last_data = some prev)
    (hne : prev ≠ formatData m.data)
    (hh : dget (natHex m.arbitration_id) s.highlighted_rows = some h)
    (hlen : s.messages.length < s.max_messages) :
    (display_message s m Dir.RX).highlighted_rows =
      dset (natHex m.arbitration_id)
        { level := 1, after_id := s.next_after_id } s.highlighted_rows ∧
    (display_message s m Dir.RX).pendingFades =
      ddel h.after_id s.pendingFades ++
        [(s.next_after_id, natHex m.arbitration_id)] := by
  have hguard : ¬ (s.paused = true ∨ (Dir.RX = Dir.RX ∧ s.filter_ids ≠ [] ∧
      ¬ natHex m.arbitration_id ∈ s.filter_ids)) := by
    simp [hp, hf]
  unfold display_message
  rw [if_neg hguard]
  dsimp only
  set S3 := statsHistoryStep { s with
    message_count := s.message_count + 1,
    last_message_timestamp := some m.timestamp }
    (natHex m.arbitration_id) m.timestamp m.data with hS3
  rw [highlightStep_fire S3 (natHex m.arbitration_id) (formatData m.data)
    hc hmode prev hprev hne h hh]
  dsimp only [lastDataStep]
  constructor
  · rw [(upsertStep_proj _ _ _ _ _).2.1, evictStep_id]
    · exact rfl
    · exact hlen
  · rw [(upsertStep_proj _ _ _ _ _).2.2.1, (evictStep_proj _).1]
    exact rfl

/-- C4: the stored data strings compare equal exactly when the payloads are
byte-for-byte equal; TX frames never start a highlight sequence; for RX
frames (the highlight mode is the source constant Message Change) a fresh
level-1 entry appears only when the stored previous RX payload for the
identifier differs from the incoming one; a qualifying change while a fade
is pending cancels the previously scheduled deferred transition and
restarts at level 1 with a fresh timer; each fade step increments a level
of at most 7 by one and removes the entry when the level is 8 (back to
idle); hence frame processing and fade steps never produce a level above
8. -/
theorem highlight_lifecycle (s : AppState) (m : Msg) :
    (∀ d1 d2 : List Byte, formatData d1 = formatData d2 ↔ d1 = d2) ∧
    (∀ i, dget i (display_message s m Dir.TX).highlighted_rows =
        dget i s.highlighted_rows ∨
      dget i (display_message s m Dir.TX).highlighted_rows = none) ∧
    (s.highlight_mode = HlMode.messageChange → ∀ i,
      dget i (display_message s m Dir.RX).highlighted_rows =
          dget i s.highlighted_rows ∨
      dget i (display_message s m Dir.RX).highlighted_rows = none ∨
      (i = natHex m.arbitration_id ∧
        dget i (display_message s m Dir.RX).highlighted_rows =
          some { level := 1, after_id := s.next_after_id } ∧
        s.highlight_changes = true ∧
        ∃ prev, dget i s.last_data = some prev ∧
          prev ≠ formatData m.data)) ∧
    (∀ (h : HlEntry) (prev : List Char),
      s.highlight_mode = HlMode.messageChange → s.paused = false →
      s.filter_ids = [] → s.highlight_changes = true →
      dget (natHex m.arbitration_id) s.last_data = some prev →
      prev ≠ formatData m.data →
      dget (natHex m.arbitration_id) s.highlighted_rows = some h →
      pendingFresh s → h.after_id < s.next_after_id →
      s.messages.length < s.max_messages →
      dget (natHex m.arbitration_id)
          (display_message s m Dir.RX).highlighted_rows =
        some { level := 1, after_id := s.next_after_id } ∧
      dget h.after_id (display_message s m Dir.RX).pendingFades = none ∧
      dget s.next_after_id (display_message s m Dir.RX).pendingFades =
        some (natHex m.arbitration_id)) ∧
    (∀ (c : CanId) (r : MsgRecord) (h : HlEntry),
      dget c s.messages = some r → dget c s.highlighted_rows = some h →
      (h.level ≤ 7 → dget c (fade_highlight s c).highlighted_rows =
        some { level := h.level + 1, after_id := s.next_after_id }) ∧
      (¬ h.level ≤ 7 →
        dget c (fade_highlight s c).highlighted_rows = none)) ∧
    (levelsLe8 s → (∀ dir, levelsLe8 (display_message s m dir)) ∧
      ∀ c, levelsLe8 (fade_highlight s c)) := by
  refine ⟨?_, ?_, ?_, ?_, ?_, ?_⟩
  · intro d1 d2
    exact ⟨formatData_inj d1 d2, fun hq => by rw [hq]⟩
  · intro i
    rcases display_highlighted_cases s m Dir.TX i with hq | hq | ⟨hdir, _⟩
    · exact Or.inl hq
    · exact Or.inr hq
    · cases hdir
  · intro hmode i
    rcases display_highlighted_cases s m Dir.RX i with hq | hq |
      ⟨_, hic, hsome, hc, hmode2⟩
    · exact Or.inl hq
    · exact Or.inr (Or.inl hq)
    · rcases hmode2 with hmsg | ⟨_, prev, hprev, hne⟩
      · rw [hmode] at hmsg
        cases hmsg
      · exact Or.inr (Or.inr ⟨hic, hsome, hc, prev, hprev, hne⟩)
  · intro h prev hmode hp hf hc hprev hne hh hfresh hlt hlen
    have hfire := display_fire s m h prev hmode hp hf hc hprev hne hh hlen
    refine ⟨?_, ?_, ?_⟩
    · rw [hfire.1]
      exact dget_dset_self _ _ _
    · rw [hfire.2, dget_append, dget_ddel_self]
      have hne2 : ¬ s.next_after_id = h.after_id := by omega
      simp [dget, hne2]
    · rw [hfire.2, dget_append]
      have hnone : dget s.next_after_id (ddel h.after_id s.pendingFades)
          = none := by
        apply dget_eq_none_of_forall
        intro q hq
        have := hfresh q (mem_ddel hq)
        omega
      rw [hnone]
      simp [dget]
  · intro c r h hm hh
    constructor
    · intro hl
      rw [fade_highlight_fire_low s c r h hm hh hl]
      dsimp only
      exact dget_dset_self _ _ _
    · intro hl
      rw [fade_highlight_fire_high s c r h hm hh hl]
      dsimp only
      exact dget_ddel_self _ _
  · intro hle
    constructor
    · intro dir p hp
      rcases display_highlighted_mem s m dir p hp with h1 | h1
      · exact hle p h1
      · omega
    · intro c p hp
      rcases fade_highlighted_mem s c p hp with h1 | ⟨h2, hh2, hlev, hle7⟩
      · exact hle p h1
      · omega

/-- C4 witness: after two RX frames for identifier A (0xA) with payloads
01 then 02, a third RX frame with payload 03 cancels pending fade timer 0
and restarts the highlight at level 1 with fresh timer 1. -/
theorem highlight_lifecycle_witness :
    dget (natHex 10) (display_message
        (processFrames (initialState 500 0)
          [(mkMsg 10 [1] 0, Dir.RX), (mkMsg 10 [2] 1, Dir.RX)])
        (mkMsg 10 [3] 2) Dir.RX).highlighted_rows =
      some { level := 1, after_id := 1 } ∧
    dget 0 (display_message
        (processFrames (initialState 500 0)
          [(mkMsg 10 [1] 0, Dir.RX), (mkMsg 10 [2] 1, Dir.RX)])
        (mkMsg 10 [3] 2) Dir.RX).pendingFades = none ∧
    dget 1 (display_message
        (processFrames (initialState 500 0)
          [(mkMsg 10 [1] 0, Dir.RX), (mkMsg 10 [2] 1, Dir.RX)])
        (mkMsg 10 [3] 2) Dir.RX).pendingFades = some (natHex 10) := by
  exact (highlight_lifecycle
      (processFrames (initialState 500 0)
        [(mkMsg 10 [1] 0, Dir.RX), (mkMsg 10 [2] 1, Dir.RX)])
      (mkMsg 10 [3] 2)).2.2.2.1
    { level := 1, after_id := 0 } (formatData [2])
    (by decide) (by decide) (by decide) (by decide) (by decide) (by decide)
    (by decide) (by unfold pendingFresh; decide) (by decide) (by decide)

/-- C6: with a positive window and a nonnegative configured bitrate, the
windowed recompute sets bus_load to rate * bits_per_frame / bitrate * 100,
with bits_per_frame 47 + 64 for classic CAN and 128 + 64 for CAN-FD;
whenever the computed value exceeds 100 exactly 100 is reported, and the
reported value always lies in [0, 100], in particular it is never
negative. -/
theorem bus_load_clamped (s : AppState) (t : ℚ)
    (helapsed : t - s.last_stats_update > 0) (hbit : 0 ≤ s.bitrate) :
    (update_stats s t).bus_load =
      (if (s.message_count : ℚ) / (t - s.last_stats_update) *
            (if s.can_fd = true then (128 : ℚ) + 64 else 47 + 64) /
            s.bitrate * 100 > 100
        then 100
        else (s.message_count : ℚ) / (t - s.last_stats_update) *
            (if s.can_fd = true then (128 : ℚ) + 64 else 47 + 64) /
            s.bitrate * 100) ∧
    0 ≤ (update_stats s t).bus_load ∧
    (update_stats s t).bus_load ≤ 100 ∧
    ((s.message_count : ℚ) / (t - s.last_stats_update) *
        (if s.can_fd = true then (128 : ℚ) + 64 else 47 + 64) /
        s.bitrate * 100 > 100 →
      (update_stats s t).bus_load = 100) := by
  have hbits : (0 : ℚ) ≤
      (if s.can_fd = true then (128 : ℚ) + 64 else 47 + 64) := by
    split_ifs <;> norm_num
  have hraw : 0 ≤ (s.message_count : ℚ) / (t - s.last_stats_update) *
      (if s.can_fd = true then (128 : ℚ) + 64 else 47 + 64) /
      s.bitrate * 100 := by
    have h1 : (0 : ℚ) ≤ (s.message_count : ℚ) / (t - s.last_stats_update) :=
      div_nonneg (Nat.cast_nonneg _) (le_of_lt helapsed)
    have h2 := mul_nonneg h1 hbits
    have h3 := div_nonneg h2 hbit
    exact mul_nonneg h3 (by norm_num)
  have hb : (update_stats s t).bus_load =
      (if (s.message_count : ℚ) / (t - s.last_stats_update) *
            (if s.can_fd = true then (128 : ℚ) + 64 else 47 + 64) /
            s.bitrate * 100 > 100
        then 100
        else (s.message_count : ℚ) / (t - s.last_stats_update) *
            (if s.can_fd = true then (128 : ℚ) + 64 else 47 + 64) /
            s.bitrate * 100) := by
    unfold update_stats
    dsimp only
    rw [if_pos helapsed]
  refine ⟨hb, ?_, ?_, ?_⟩
  · rw [hb]
    by_cases h : (s.message_count : ℚ) / (t - s.last_stats_update) *
        (if s.can_fd = true then (128 : ℚ) + 64 else 47 + 64) /
        s.bitrate * 100 > 100
    · rw [if_pos h]
      norm_num
    · rw [if_neg h]
      exact hraw
  · rw [hb]
    by_cases h : (s.message_count : ℚ) / (t - s.last_stats_update) *
        (if s.can_fd = true then (128 : ℚ) + 64 else 47 + 64) /
        s.bitrate * 100 > 100
    · rw [if_pos h]
    · rw [if_neg h]
      exact le_of_not_lt h
  · intro hgt
    rw [hb, if_pos hgt]

/-- C6 witness: the clamp bounds applied at the initial state one second
into the window. -/
theorem bus_load_clamped_witness :
    0 ≤ (update_stats (initialState 500 0) 1).bus_load ∧
    (update_stats (initialState 500 0) 1).bus_load ≤ 100 := by
  have h := bus_load_clamped (initialState 500 0) 1 (by simp [initialState])
    (by decide)
  exact ⟨h.2.1, h.2.2.1⟩

/-- C8: a periodic activation with an interval below 10 ms is rejected
without starting a job or attempting a send, and a stopped job never runs
again; each cycle makes exactly one send attempt, scheduling the next cycle
only on success, while any failure stops the whole job; concretely, a
successful activation whose second cycle fails ends with the job stopped
after exactly 2 attempts and 1 displayed TX frame, and no third send ever
occurs whatever outcomes would follow. -/
theorem periodic_send_spec (ps : PeriodicState) (i : Int) (d : List Byte)
    (q : ℚ) :
    (ps.bus = true → ps.send_periodic_var = true → q < 10 →
      ∀ (o : SendResult) (outs : List SendResult),
        toggle_periodic ps (some (i, d, q)) o = stop_periodic ps ∧
        (stop_periodic ps).sends_attempted = ps.sends_attempted ∧
        (stop_periodic ps).task_scheduled = false ∧
        runPeriodic (stop_periodic ps) outs = stop_periodic ps) ∧
    (ps.bus = true → ps.send_periodic_var = true →
      schedule_periodic_send ps SendResult.ok =
        { ps with sends_attempted := ps.sends_attempted + 1,
                  tx_displayed := ps.tx_displayed + 1,
                  task_scheduled := true } ∧
      ∀ e : SendResult, e ≠ SendResult.ok →
        schedule_periodic_send ps e =
          stop_periodic { ps with
            sends_attempted := ps.sends_attempted + 1 } ∧
        (schedule_periodic_send ps e).task_scheduled = false) ∧
    (∀ outs : List SendResult,
      runPeriodic
          (toggle_periodic
            { bus := true, send_periodic_var := true, task_scheduled := false,
              sends_attempted := 0, tx_displayed := 0 }
            (some (i, d, 100)) SendResult.ok)
          (SendResult.canError :: outs)
        = { bus := true, send_periodic_var := false, task_scheduled := false,
            sends_attempted := 2, tx_displayed := 1 }) := by
  refine ⟨?_, ?_, ?_⟩
  · intro hb hv hq o outs
    have ht : toggle_periodic ps (some (i, d, q)) o = stop_periodic ps := by
      unfold toggle_periodic
      rw [if_neg (by simp [hb]), if_pos hv]
      simp only [if_pos hq]
    refine ⟨ht, rfl, rfl, ?_⟩
    cases outs with
    | nil => rfl
    | cons o2 rest => simp [runPeriodic, stop_periodic]
  · intro hb hv
    constructor
    · unfold schedule_periodic_send
      rw [if_neg (by simp [hb, hv])]
    · intro e he
      have hsch : schedule_periodic_send ps e =
          stop_periodic { ps with sends_attempted := ps.sends_attempted + 1 } := by
        unfold schedule_periodic_send
        rw [if_neg (by simp [hb, hv])]
        cases e with
        | ok => exact absurd rfl he
        | canError => rfl
        | otherError => rfl
      exact ⟨hsch, by rw [hsch]; rfl⟩
  · intro outs
    have ht : toggle_periodic
        { bus := true, send_periodic_var := true, task_scheduled := false,
          sends_attempted := 0, tx_displayed := 0 }
        (some (i, d, 100)) SendResult.ok =
        { bus := true, send_periodic_var := true, task_scheduled := true,
          sends_attempted := 1, tx_displayed := 1 } := by
      norm_num [toggle_periodic, schedule_periodic_send]
    rw [ht]
    cases outs with
    | nil =>
      simp [runPeriodic, schedule_periodic_send, stop_periodic]
    | cons o2 rest =>
      simp [runPeriodic, schedule_periodic_send, stop_periodic]

/-- C8 witness: activation at 5 ms on a connected, toggled-on idle state is
rejected with no attempt, and a failure on the second cycle after a
successful start leaves 2 attempts, 1 TX frame and a stopped job. -/
theorem periodic_send_spec_witness :
    toggle_periodic
        { bus := true, send_periodic_var := true, task_scheduled := false,
          sends_attempted := 0, tx_displayed := 0 }
        (some (1, [], 5)) SendResult.ok =
      stop_periodic
        { bus := true, send_periodic_var := true, task_scheduled := false,
          sends_attempted := 0, tx_displayed := 0 } ∧
    runPeriodic
        (toggle_periodic
          { bus := true, send_periodic_var := true, task_scheduled := false,
            sends_attempted := 0, tx_displayed := 0 }
          (some (1, [], 100)) SendResult.ok)
        [SendResult.canError, SendResult.ok]
      = { bus := true, send_periodic_var := false, task_scheduled := false,
          sends_attempted := 2, tx_displayed := 1 } := by
  have h := periodic_send_spec
    { bus := true, send_periodic_var := true, task_scheduled := false,
      sends_attempted := 0, tx_displayed := 0 } 1 [] 5
  exact ⟨(h.1 rfl rfl (by decide) SendResult.ok []).1, h.2.2 [SendResult.ok]⟩

end CANApp
